import Mathlib

/-!
Verification development for a caching reverse proxy written in Rust
(`src/constants.rs`, `src/utils.rs`, `src/cache.rs`, `src/server.rs`,
`src/handler/range.rs`, `src/handler/response.rs`).

The source is shallowly embedded: byte buffers are `List Nat`, u64 values are
`Nat` (with explicit wrap where the source can underflow), fallible slicing
returns `Option` (a `none` models a Rust panic), and every origin / disk I/O
outcome is passed in as an explicit parameter, so all definitions are
executable and the handlers become pure functions of their inputs.
-/

-- Constants, from src/constants.rs.
def MAX_CACHE_SIZE : Nat := 20

def MAX_FILE_SIZE : Nat := 100 * 1024 * 1024

def TIMEOUT_SECONDS : Nat := 30

def MAX_RETRIES : Nat := 3

def RETRY_DELAY_MS : Nat := 1000

/-- Byte buffers (`bytes::Bytes` / `Vec<u8>`) as lists of byte values. -/
abbrev Bytes := List Nat

-- Data model, from src/cache.rs.
structure CacheMeta where
  content_type : String
  is_complete : Bool
  total_size : Option Nat
deriving DecidableEq

structure CacheEntry where
  content : Bytes
  meta : CacheMeta
deriving DecidableEq

/-- HTTP header view used by the handlers: the three headers the source ever
reads (values kept as raw strings, as the source parses them from strings). -/
structure Headers where
  contentType : Option String
  contentRange : Option String
  contentLength : Option String
deriving DecidableEq

/-- One chunk of a streamed response body: `chunk?` in the source either
yields bytes or fails. -/
inductive Chunk where
  | ok (b : Bytes)
  | fail
deriving DecidableEq

/-- An origin response as consumed by the handlers: status, headers, body
stream. -/
structure Reply where
  status : Nat
  headers : Headers
  chunks : List Chunk
deriving DecidableEq

/-- Outcome of a `fetch_with_retry` call as seen by a handler: the fetch
either exhausted its retries (`err`) or produced a response. -/
inductive FetchReply where
  | err
  | ok (r : Reply)
deriving DecidableEq

/-- Outcome of the HEAD probe performed by `get_total_size`. -/
inductive ProbeReply where
  | err
  | ok (h : Headers)
deriving DecidableEq

/-- The response the proxy hands back to the client (status plus the headers
the source explicitly sets, plus body). -/
structure HttpResponse where
  status : Nat
  contentType : Option String
  contentRange : Option String
  body : Bytes
deriving DecidableEq

/-- Result of a handler: `crash` models a Rust panic (out-of-bounds slice),
`err` a propagated `anyhow` error, `ok` a response returned to the client. -/
inductive HResult where
  | crash
  | err
  | ok (r : HttpResponse)
deriving DecidableEq

/-- `format!("bytes \x7b\x7d-\x7b\x7d/\x7b\x7d", start, end, total)` -/
def fmtContentRange (s e total : Nat) : String :=
  "bytes " ++ toString s ++ "-" ++ toString e ++ "/" ++ toString total

/-- `format!("bytes=\x7b\x7d-\x7b\x7d", a, b)` -/
def fmtRangeHeader (a b : Nat) : String :=
  "bytes=" ++ toString a ++ "-" ++ toString b

/-- Rust slice indexing `xs[lo..hi]` (and `Bytes::slice(lo..hi)`): defined
exactly when `lo <= hi <= xs.length`, a panic otherwise. -/
def rsSlice (xs : Bytes) (lo hi : Nat) : Option Bytes :=
  if lo ≤ hi ∧ hi ≤ xs.length then some ((xs.drop lo).take (hi - lo)) else none

/-- u64 `n - 1` with wraparound, as in `new_content.len() as u64 - 1`. -/
def u64Pred (n : Nat) : Nat := if n = 0 then 2 ^ 64 - 1 else n - 1

-- String parsing helpers, from src/utils.rs and src/handler/response.rs.

/-- `str::trim_start_matches("bytes=")`: strips every leading occurrence. -/
def stripBytesEq (s : List Char) : List Char :=
  match s with
  | 'b' :: 'y' :: 't' :: 'e' :: 's' :: '=' :: rest => stripBytesEq rest
  | other => other

/-- `str::split(sep)` on a single-character separator. -/
def splitOnChar (sep : Char) : List Char → List (List Char)
  | [] => [[]]
  | c :: rest =>
    let r := splitOnChar sep rest
    if c = sep then [] :: r
    else
      match r with
      | [] => [[c]]
      | h :: t => (c :: h) :: t

def digitsToNat (l : List Char) : Nat :=
  l.foldl (fun acc c => acc * 10 + (c.toNat - 48)) 0

/-- `str::parse::<u64>()`: optional leading plus sign, at least one digit,
value must fit in a u64. -/
def parseU64 (s : List Char) : Option Nat :=
  let cs := match s with
    | '+' :: rest => rest
    | l => l
  if (!cs.isEmpty) && cs.all Char.isDigit then
    let n := digitsToNat cs
    if n < 2 ^ 64 then some n else none
  else none

/-- `parse_range` from src/utils.rs: strip `bytes=`, split on `-`, parse the
first two pieces as u64. -/
def parse_range (range : String) : Option (Nat × Nat) :=
  let r := stripBytesEq range.toList
  match splitOnChar '-' r with
  | [] => none
  | [_] => none
  | a :: b :: _ =>
    match parseU64 a with
    | none => none
    | some s =>
      match parseU64 b with
      | none => none
      | some e => some (s, e)

/-- Body of an unconsumed response stream handed through to the client: the
bytes the stream will yield (it stops at the first failing chunk). -/
def drainChunks : List Chunk → Bytes
  | [] => []
  | .ok b :: rest => b ++ drainChunks rest
  | .fail :: _ => []

/-- A passed-through origin response (`Ok(resp)` with the body stream
untouched). -/
def passThrough (r : Reply) : HttpResponse :=
  ⟨r.status, r.headers.contentType, r.headers.contentRange, drainChunks r.chunks⟩

/-- The body-accumulation loop of `handle_range_request` (src/handler/range.rs
lines 60-67): read every chunk, failing if any chunk fails. -/
def readAll : List Chunk → Option Bytes
  | [] => some []
  | .ok b :: rest =>
    match readAll rest with
    | none => none
    | some t => some (b ++ t)
  | .fail :: _ => none

/-- Output of `handle_range_request`: the result, the `Range` header value the
outbound origin request actually carries (`none` when no fetch is issued), the
entry handed to `cache.set` (`none` when `set` is not called), and whether an
origin fetch was issued. -/
structure RangeOut where
  result : HResult
  sentRange : Option String
  cacheWrite : Option CacheEntry
  fetched : Bool
deriving DecidableEq

/-- `handle_range_request` from src/handler/range.rs.  `reqRange` is the
original request's `Range` header; `originExt` the outcome of the extension
fetch; `diskOk` whether the durable write inside `cache.set` succeeds.

Note the source first sets `Range: bytes=cached_len-end` on the outbound
request and then executes `*client_req.headers_mut() = req.headers().clone()`,
replacing the whole header map: the override is lost and the header actually
sent is the original `reqRange`. -/
def handle_range_request (range : Nat × Nat) (cached : CacheEntry)
    (reqRange : Option String) (originExt : FetchReply) (diskOk : Bool) :
    RangeOut :=
  let cached_len := cached.content.length
  let s := range.1
  let e := range.2
  if e ≤ cached_len then
    match rsSlice cached.content s (e + 1) with
    | none => ⟨.crash, none, none, false⟩
    | some sl =>
      ⟨.ok ⟨206, some cached.meta.content_type,
            some (fmtContentRange s e cached_len), sl⟩, none, none, false⟩
  else
    let sent := reqRange
    match originExt with
    | .err => ⟨.err, sent, none, true⟩
    | .ok r =>
      if r.status = 206 then
        match readAll r.chunks with
        | none => ⟨.err, sent, none, true⟩
        | some body =>
          let new_content := cached.content ++ body
          let ct := cached.meta.content_type
          let entry : CacheEntry :=
            ⟨new_content,
             ⟨ct, e == u64Pred new_content.length, some new_content.length⟩⟩
          let wants := new_content.length ≤ MAX_FILE_SIZE
          let write := if wants then some entry else none
          if wants ∧ diskOk = false then ⟨.err, sent, write, true⟩
          else
            match rsSlice new_content s (e + 1) with
            | none => ⟨.crash, sent, write, true⟩
            | some rsl =>
              ⟨.ok ⟨206, some ct,
                    some (fmtContentRange s e new_content.length), rsl⟩,
               sent, write, true⟩
      else ⟨.ok (passThrough r), sent, none, true⟩

/-- C1 range fidelity: for a cached entry of length `L` and a range `a-b` with
`a <= b < L`, `handle_range_request` returns 206 with body exactly the slice
`[a,b]` of the cached content (length `b-a+1`), `Content-Range: bytes a-b/L`,
no origin fetch and no cache write. -/
theorem range_fully_cached_fidelity (cached : CacheEntry) (a b : Nat)
    (reqR : Option String) (origin : FetchReply) (diskOk : Bool)
    (hab : a ≤ b) (hb : b < cached.content.length) :
    handle_range_request (a, b) cached reqR origin diskOk =
      ⟨.ok ⟨206, some cached.meta.content_type,
            some (fmtContentRange a b cached.content.length),
            (cached.content.drop a).take (b - a + 1)⟩, none, none, false⟩ ∧
    ((cached.content.drop a).take (b - a + 1)).length = b - a + 1 := by
  have hle : b ≤ cached.content.length := Nat.le_of_lt hb
  have hcnt : b + 1 - a = b - a + 1 := by omega
  constructor
  · simp only [handle_range_request, rsSlice]
    rw [if_pos hle, if_pos ⟨by omega, by omega⟩, hcnt]
  · rw [List.length_take, List.length_drop]
    omega

/-- C1 witness: concrete instance of `range_fully_cached_fidelity`. -/
theorem range_fully_cached_fidelity_witness :
    handle_range_request (0, 1) ⟨[1, 2, 3], ⟨"t", true, some 3⟩⟩
        none .err true =
      ⟨.ok ⟨206, some "t", some (fmtContentRange 0 1 3), [1, 2]⟩,
       none, none, false⟩ := by
  have h := range_fully_cached_fidelity ⟨[1, 2, 3], ⟨"t", true, some 3⟩⟩
    0 1 none .err true (by decide) (by decide)
  simpa using h.1

-- src/handler/response.rs ----------------------------------------------------

/-- Parse the total out of a `Content-Range` value: `split('/').last()` then
`parse::<u64>()`. -/
def contentRangeTotal (s : String) : Option Nat :=
  match (splitOnChar '/' s.toList).getLast? with
  | none => none
  | some piece => parseU64 piece

/-- `get_total_size` from src/handler/response.rs, over the outcome of its
HEAD probe.  `none` models the probe fetch failing (the error propagates);
otherwise the result is `Content-Range` total if parseable, else
`Content-Length` if parseable, else no size. -/
def get_total_size (probe : ProbeReply) : Option (Option Nat) :=
  match probe with
  | .err => none
  | .ok h =>
    match h.contentRange.bind contentRangeTotal with
    | some n => some (some n)
    | none =>
      match h.contentLength.bind (fun v => parseU64 v.toList) with
      | some n => some (some n)
      | none => some none

/-- `check_response_complete` from src/handler/response.rs.  Note the
asymmetry faithful to the source: an unparseable `Content-Range` yields
`false`, while an absent/unparseable `Content-Length` yields `true`. -/
def check_response_complete (h : Headers) (content_length : Nat) : Bool :=
  match h.contentRange with
  | some s =>
    match contentRangeTotal s with
    | some total => content_length == total
    | none => false
  | none =>
    match h.contentLength.bind (fun v => parseU64 v.toList) with
    | some l => content_length == l
    | none => true

-- src/server.rs: fetch_and_cache_full_response -------------------------------

/-- Result of the streaming loop in `fetch_and_cache_full_response`
(src/server.rs lines 179-189): `done` when the stream ends within the bound,
`cut` when the accumulated body exceeds `MAX_FILE_SIZE` (the loop returns the
bytes read so far, including the crossing chunk), `failed` on a chunk error. -/
inductive FullStream where
  | done (b : Bytes)
  | cut (b : Bytes)
  | failed
deriving DecidableEq

def streamFull : List Chunk → Bytes → FullStream
  | [], acc => .done acc
  | .fail :: _, _ => .failed
  | .ok c :: rest, acc =>
    let acc2 := acc ++ c
    if MAX_FILE_SIZE < acc2.length then .cut acc2 else streamFull rest acc2

/-- Output of `fetch_and_cache_full_response`: the client-visible result, the
entry handed to `cache.set` (`none` when `set` is not called), and whether the
HEAD probe (`get_total_size`) was issued. -/
structure FullOut where
  result : HResult
  cacheWrite : Option CacheEntry
  probed : Bool
deriving DecidableEq

/-- `fetch_and_cache_full_response` from src/server.rs (lines 157-224),
over the outcome of its origin fetch and HEAD probe.  On an oversized body the
source returns a response built from only the status and the accumulated
bytes (origin headers are not copied) and never calls `cache.set`; on a
completed body it computes completeness and total size, calls `cache.set`
(whose durable-write failure propagates as an error), and returns the body
with origin headers. -/
def fetch_and_cache_full_response (origin : FetchReply) (probe : ProbeReply)
    (diskOk : Bool) : FullOut :=
  match origin with
  | .err => ⟨.err, none, false⟩
  | .ok r =>
    if 200 ≤ r.status ∧ r.status ≤ 299 then
      let ct := (r.headers.contentType).getD "application/octet-stream"
      match streamFull r.chunks [] with
      | .failed => ⟨.err, none, false⟩
      | .cut b => ⟨.ok ⟨r.status, none, none, b⟩, none, false⟩
      | .done b =>
        let ic := check_response_complete r.headers b.length
        match get_total_size probe with
        | none => ⟨.err, none, true⟩
        | some t =>
          let ts := match t with
            | some n => some n
            | none => some b.length
          let entry : CacheEntry := ⟨b, ⟨ct, ic, ts⟩⟩
          if diskOk then
            ⟨.ok ⟨r.status, r.headers.contentType, r.headers.contentRange, b⟩,
             some entry, true⟩
          else ⟨.err, some entry, true⟩
    else ⟨.ok (passThrough r), none, false⟩

-- src/server.rs: the incomplete-cache-entry branch ---------------------------

/-- Result of the merge streaming loop in `handle_request` (src/server.rs
lines 101-116): `exceeded` when `cached_len + accumulated > total_size`
(the source then falls back to a full fresh fetch). -/
inductive MergeStream where
  | done (b : Bytes)
  | exceeded
  | failed
deriving DecidableEq

def streamMerge (total cachedLen : Nat) : List Chunk → Bytes → MergeStream
  | [], acc => .done acc
  | .fail :: _, _ => .failed
  | .ok c :: rest, acc =>
    let acc2 := acc ++ c
    if total < cachedLen + acc2.length then .exceeded
    else streamMerge total cachedLen rest acc2

/-- Control outcome of the incomplete-entry branch: an error, a served
response, or a fall-through to `fetch_and_cache_full_response`. -/
inductive IncCtl where
  | errOut
  | served (resp : HttpResponse)
  | fullFallback
deriving DecidableEq

structure IncOut where
  ctl : IncCtl
  write : Option CacheEntry
  probed : Bool
  fetched : Bool
deriving DecidableEq

/-- The body of the incomplete-entry branch once `total_size` is known
(src/server.rs lines 70-148).  The extension request is again built with a
`Range: bytes=cached_len-(total_size-1)` override that is immediately lost to
the wholesale header copy; `ext` is the outcome of that fetch.  On a clean 206
merge the source stores the merged bytes with `is_complete: true` and
`total_size: Some(total_size)` and serves them; on a non-206 status, a size
violation, or `total_size == 0` control falls through to the full fetch. -/
def handleIncompleteSized (cached : CacheEntry) (total_size : Nat)
    (ext : FetchReply) (diskOk : Bool) (probed : Bool) : IncOut :=
  let cached_len := cached.content.length
  if 0 < total_size then
    if total_size ≤ cached_len then
      ⟨.served ⟨200, some cached.meta.content_type, none, cached.content⟩,
       none, probed, false⟩
    else
      match ext with
      | .err => ⟨.errOut, none, probed, true⟩
      | .ok r =>
        if r.status = 206 then
          match streamMerge total_size cached_len r.chunks [] with
          | .failed => ⟨.errOut, none, probed, true⟩
          | .exceeded => ⟨.fullFallback, none, probed, true⟩
          | .done remaining =>
            let complete_data := cached.content ++ remaining
            let entry : CacheEntry :=
              ⟨complete_data,
               ⟨cached.meta.content_type, true, some total_size⟩⟩
            if diskOk then
              ⟨.served ⟨200, some cached.meta.content_type, none,
                        complete_data⟩, some entry, probed, true⟩
            else ⟨.errOut, some entry, probed, true⟩
        else ⟨.fullFallback, none, probed, true⟩
  else ⟨.fullFallback, none, probed, false⟩

/-- The incomplete-entry branch of `handle_request` (src/server.rs lines
59-149): resolve `total_size` from the metadata, else from a HEAD probe
(`unwrap_or(0)` on no size; a probe fetch failure propagates as an error). -/
def handle_incomplete (cached : CacheEntry) (probe : ProbeReply)
    (ext : FetchReply) (diskOk : Bool) : IncOut :=
  match cached.meta.total_size with
  | some sz => handleIncompleteSized cached sz ext diskOk false
  | none =>
    match get_total_size probe with
    | none => ⟨.errOut, none, true, false⟩
    | some t => handleIncompleteSized cached (t.getD 0) ext diskOk true

-- src/server.rs: handle_request ----------------------------------------------

/-- The origin interactions a request may perform. -/
inductive Ev where
  | rangeFetch
  | headProbe
  | extFetch
  | fullFetch
deriving DecidableEq

/-- The I/O outcomes a single request may consume: one oracle per potential
fetch, plus whether durable cache writes succeed. -/
structure Oracles where
  rangeExt : FetchReply
  probe : ProbeReply
  ext : FetchReply
  full : FetchReply
  fullProbe : ProbeReply
  diskOk : Bool

structure ReqOut where
  result : HResult
  events : List Ev
  writes : List CacheEntry
deriving DecidableEq

def runFull (O : Oracles) : ReqOut :=
  let f := fetch_and_cache_full_response O.full O.fullProbe O.diskOk
  ⟨f.result, .fullFetch :: (if f.probed then [.headProbe] else []),
   f.cacheWrite.toList⟩

/-- `handle_request` from src/server.rs (lines 13-154).  Faithful to the
source's control flow: with a cached entry and a `Range` header, an
unparseable header falls out of the `if let` chain to the final
`fetch_and_cache_full_response` call (line 153), not to the cached-entry
no-range arms. -/
def handle_request (cached : Option CacheEntry) (rangeHeader : Option String)
    (O : Oracles) : ReqOut :=
  match cached with
  | none => runFull O
  | some entry =>
    match rangeHeader with
    | some s =>
      match parse_range s with
      | some r =>
        let o := handle_range_request r entry (some s) O.rangeExt O.diskOk
        ⟨o.result, if o.fetched then [.rangeFetch] else [],
         o.cacheWrite.toList⟩
      | none => runFull O
    | none =>
      if entry.meta.is_complete then
        ⟨.ok ⟨200, some entry.meta.content_type, none, entry.content⟩, [], []⟩
      else
        let io := handle_incomplete entry O.probe O.ext O.diskOk
        let evs := (if io.probed then [.headProbe] else []) ++
          (if io.fetched then [.extFetch] else [])
        match io.ctl with
        | .errOut => ⟨.err, evs, io.write.toList⟩
        | .served resp => ⟨.ok resp, evs, io.write.toList⟩
        | .fullFallback =>
          let f := runFull O
          ⟨f.result, evs ++ f.events, io.write.toList ++ f.writes⟩

-- src/cache.rs: the tiered store ---------------------------------------------

/-- The in-memory LRU tier as a recency-ordered association list (most recent
first).  `lruPut` mirrors `lru::LruCache::put`: replace an existing key and
move it to the front, or insert, evicting the least-recently-used entry when
the tier is at capacity. -/
def lruPut (cap : Nat) (k : String) (v : CacheEntry)
    (m : List (String × CacheEntry)) : List (String × CacheEntry) :=
  let without := m.filter (fun p => p.1 != k)
  let base := if cap ≤ without.length then without.dropLast else without
  (k, v) :: base

/-- `lru::LruCache::get`: a hit refreshes recency. -/
def lruGet (k : String) (m : List (String × CacheEntry)) :
    Option CacheEntry × List (String × CacheEntry) :=
  match m.find? (fun p => p.1 == k) with
  | none => (none, m)
  | some p => (some p.2, (k, p.2) :: m.filter (fun q => q.1 != k))

/-- The durable tier as a key-addressed store of content plus metadata.  The
two related on-disk records (content blob and JSON metadata file) are modelled
as one record holding both; the serde JSON round-trip is abstracted as
identity storage. -/
def diskLookup (k : String) (d : List (String × CacheEntry)) :
    Option CacheEntry :=
  (d.find? (fun p => p.1 == k)).map (fun p => p.2)

def diskInsert (k : String) (v : CacheEntry)
    (d : List (String × CacheEntry)) : List (String × CacheEntry) :=
  (k, v) :: d.filter (fun p => p.1 != k)

structure CacheState where
  memory : List (String × CacheEntry)
  disk : List (String × CacheEntry)
deriving DecidableEq

/-- Which tier served a `get`. -/
inductive Tier where
  | memory
  | disk
deriving DecidableEq

/-- `ProxyCache::get` from src/cache.rs: memory tier first (refreshing
recency); on miss, the durable tier, promoting the entry into memory when its
content is within `MAX_FILE_SIZE`. -/
def ProxyCache_get (st : CacheState) (k : String) :
    Option (CacheEntry × Tier) × CacheState :=
  match lruGet k st.memory with
  | (some e, m2) => (some (e, .memory), ⟨m2, st.disk⟩)
  | (none, _) =>
    match diskLookup k st.disk with
    | some e =>
      let mem2 := if e.content.length ≤ MAX_FILE_SIZE
        then lruPut MAX_CACHE_SIZE k e st.memory else st.memory
      (some (e, .disk), ⟨mem2, st.disk⟩)
    | none => (none, st)

/-- `ProxyCache::set` from src/cache.rs: the memory tier is updated first
(only for entries within `MAX_FILE_SIZE`), then the durable tier is written;
`diskOk` is the outcome of the durable write.  The boolean result is `true`
for `Ok(())`; on a durable-write failure the memory update is not rolled
back. -/
def ProxyCache_set (st : CacheState) (k : String) (e : CacheEntry)
    (diskOk : Bool) : Bool × CacheState :=
  let mem2 := if e.content.length ≤ MAX_FILE_SIZE
    then lruPut MAX_CACHE_SIZE k e st.memory else st.memory
  if diskOk then (true, ⟨mem2, diskInsert k e st.disk⟩)
  else (false, ⟨mem2, st.disk⟩)

-- src/utils.rs: fetch_with_retry ---------------------------------------------

/-- Outcome of one request attempt: a received response (any status), a
transport error, or a per-attempt timeout. -/
inductive AttemptOutcome where
  | success (r : Reply)
  | transportErr (e : Nat)
  | timeout
deriving DecidableEq

def AttemptOutcome.isFailure : AttemptOutcome → Bool
  | .success _ => false
  | .transportErr _ => true
  | .timeout => true

/-- The failure `fetch_with_retry` surfaces: the last transport error, or the
timeout error. -/
inductive FetchFailure where
  | transport (e : Nat)
  | timedOut
deriving DecidableEq

def lastFailure : AttemptOutcome → FetchFailure
  | .transportErr e => .transport e
  | _ => .timedOut

inductive FetchResultR where
  | ok (r : Reply)
  | fail (f : FetchFailure)
deriving DecidableEq

/-- A run of `fetch_with_retry`: its result, the number of request attempts
made, and the number of `sleep(RETRY_DELAY_MS)` calls (one between each pair
of consecutive attempts). -/
structure FetchRun where
  result : FetchResultR
  attempts : Nat
  sleeps : Nat
deriving DecidableEq

/-- The retry loop of `fetch_with_retry` (src/utils.rs lines 28-52), with
`budget = MAX_RETRIES - retries` remaining retries and `i` the index of the
current attempt; `oracle i` is the outcome of attempt `i`. -/
def fetchAux (oracle : Nat → AttemptOutcome) : Nat → Nat → FetchRun
  | budget, i =>
    match oracle i with
    | .success r => ⟨.ok r, 1, 0⟩
    | .transportErr e =>
      match budget with
      | 0 => ⟨.fail (.transport e), 1, 0⟩
      | b + 1 =>
        let rest := fetchAux oracle b (i + 1)
        ⟨rest.result, rest.attempts + 1, rest.sleeps + 1⟩
    | .timeout =>
      match budget with
      | 0 => ⟨.fail .timedOut, 1, 0⟩
      | b + 1 =>
        let rest := fetchAux oracle b (i + 1)
        ⟨rest.result, rest.attempts + 1, rest.sleeps + 1⟩

def fetch_with_retry (oracle : Nat → AttemptOutcome) : FetchRun :=
  fetchAux oracle MAX_RETRIES 0

-- Shared concrete fixtures ---------------------------------------------------

/-- Empty header set. -/
def H0 : Headers := ⟨none, none, none⟩

/-- A three-byte fully cached entry. -/
def E3 : CacheEntry := ⟨[10, 20, 30], ⟨"t", true, some 3⟩⟩

/-- A one-byte incomplete cached entry. -/
def E1 : CacheEntry := ⟨[9], ⟨"t", false, some 9⟩⟩

-- Supporting lemmas ----------------------------------------------------------

theorem streamMerge_done_le (total cl : Nat) :
    ∀ (chunks : List Chunk) (acc b : Bytes), cl + acc.length ≤ total →
      streamMerge total cl chunks acc = .done b → cl + b.length ≤ total := by
  intro chunks
  induction chunks with
  | nil =>
    intro acc b h he
    simp only [streamMerge] at he
    cases he
    exact h
  | cons c rest ih =>
    intro acc b h he
    cases c with
    | fail => simp [streamMerge] at he
    | ok ch =>
      simp only [streamMerge] at he
      by_cases hc : total < cl + (acc ++ ch).length
      · rw [if_pos hc] at he
        cases he
      · rw [if_neg hc] at he
        exact ih (acc ++ ch) b (Nat.le_of_not_lt hc) he

theorem streamFull_cut_gt :
    ∀ (chunks : List Chunk) (acc b : Bytes),
      streamFull chunks acc = .cut b → MAX_FILE_SIZE < b.length := by
  intro chunks
  induction chunks with
  | nil =>
    intro acc b he
    simp [streamFull] at he
  | cons c rest ih =>
    intro acc b he
    cases c with
    | fail => simp [streamFull] at he
    | ok ch =>
      simp only [streamFull] at he
      by_cases hc : MAX_FILE_SIZE < (acc ++ ch).length
      · rw [if_pos hc] at he
        cases he
        exact hc
      · rw [if_neg hc] at he
        exact ih (acc ++ ch) b he

theorem fetchAux_allFail (oracle : Nat → AttemptOutcome) :
    ∀ (b i : Nat), (∀ k, k ≤ b → (oracle (i + k)).isFailure = true) →
      fetchAux oracle b i =
        ⟨.fail (lastFailure (oracle (i + b))), b + 1, b⟩ := by
  intro b
  induction b with
  | zero =>
    intro i h
    have h0 : (oracle i).isFailure = true := by simpa using h 0 (Nat.le_refl 0)
    simp only [fetchAux]
    cases ho : oracle i with
    | success r => rw [ho] at h0; simp [AttemptOutcome.isFailure] at h0
    | transportErr e => simp [Nat.add_zero, ho, lastFailure]
    | timeout => simp [Nat.add_zero, ho, lastFailure]
  | succ b ih =>
    intro i h
    have h0 : (oracle i).isFailure = true := by simpa using h 0 (Nat.zero_le _)
    have hshift : ∀ k, k ≤ b → (oracle (i + 1 + k)).isFailure = true := by
      intro k hk
      have := h (k + 1) (by omega)
      have harith : i + (k + 1) = i + 1 + k := by omega
      rwa [harith] at this
    have hrec := ih (i + 1) hshift
    have harith2 : i + 1 + b = i + (b + 1) := by omega
    simp only [fetchAux]
    cases ho : oracle i with
    | success r => rw [ho] at h0; simp [AttemptOutcome.isFailure] at h0
    | transportErr e => rw [hrec, harith2]
    | timeout => rw [hrec, harith2]

theorem fetchAux_firstSuccess (oracle : Nat → AttemptOutcome) :
    ∀ (j b i : Nat) (r : Reply), j ≤ b →
      (∀ n, n < j → (oracle (i + n)).isFailure = true) →
      oracle (i + j) = .success r →
      fetchAux oracle b i = ⟨.ok r, j + 1, j⟩ := by
  intro j
  induction j with
  | zero =>
    intro b i r _ _ hs
    rw [Nat.add_zero] at hs
    cases b with
    | zero => simp only [fetchAux]; rw [hs]
    | succ b0 => simp only [fetchAux]; rw [hs]
  | succ j ih =>
    intro b i r hj hfail hs
    obtain ⟨b0, rfl⟩ : ∃ b0, b = b0 + 1 := ⟨b - 1, by omega⟩
    have h0 : (oracle i).isFailure = true := by
      simpa using hfail 0 (Nat.zero_lt_succ _)
    have hshift : ∀ n, n < j → (oracle (i + 1 + n)).isFailure = true := by
      intro n hn
      have := hfail (n + 1) (by omega)
      have harith : i + (n + 1) = i + 1 + n := by omega
      rwa [harith] at this
    have hs2 : oracle (i + 1 + j) = .success r := by
      have harith : i + (j + 1) = i + 1 + j := by omega
      rwa [harith] at hs
    have hrec := ih b0 (i + 1) r (by omega) hshift hs2
    simp only [fetchAux]
    cases ho : oracle i with
    | success r2 => rw [ho] at h0; simp [AttemptOutcome.isFailure] at h0
    | transportErr e => rw [hrec]
    | timeout => rw [hrec]

-- C2 -------------------------------------------------------------------------

/-- C2 boundary behaviour: the claim says `end == cachedLen` takes the
needs-extension branch with a `Range: bytes=cachedLen-end` override.  The
code instead compares `end <= cached_len`, so at `end == cachedLen` it takes
the fully-covered branch and performs an out-of-bounds slice (a panic, no
origin fetch); moreover, in the extension branch the Range override is lost
to the wholesale header copy, so the header actually sent is the client's
original one, not `bytes=cachedLen-end`. -/
theorem c2_boundary_counterexample :
    handle_range_request (0, 1) E1 (some "bytes=0-1") .err true =
      ⟨.crash, none, none, false⟩ ∧
    (handle_range_request (0, 2) E1 (some "bytes=0-2")
        (.ok ⟨206, H0, [.ok [7, 8]]⟩) true).sentRange = some "bytes=0-2" ∧
    fmtRangeHeader 1 2 = "bytes=1-2" ∧
    some "bytes=0-2" ≠ some "bytes=1-2" := by
  refine ⟨by decide, by decide, by decide, by decide⟩

-- C6 -------------------------------------------------------------------------

/-- C6: the claim (from the spec) says `start > end` and out-of-range ends are
treated as an invalid-range error class.  The code has no such error class: a
parseable inverted range `bytes=5-2` against a 3-byte cached entry panics in
the slice (`crash`), and `bytes=2-1` silently returns a 206 with an empty body
and `Content-Range: bytes 2-1/3`. -/
theorem c6_no_invalid_range_error :
    parse_range "bytes=5-2" = some (5, 2) ∧
    handle_range_request (5, 2) E3 (some "bytes=5-2") .err true =
      ⟨.crash, none, none, false⟩ ∧
    handle_range_request (2, 1) E3 (some "bytes=2-1") .err true =
      ⟨.ok ⟨206, some "t", some (fmtContentRange 2 1 3), []⟩,
       none, none, false⟩ := by
  refine ⟨by decide, by decide, by decide⟩

-- C7 -------------------------------------------------------------------------

/-- C7 retry budget: when every attempt fails (transport error or timeout),
`fetch_with_retry` makes exactly `1 + MAX_RETRIES` attempts with a fixed
delay between consecutive attempts (`MAX_RETRIES` sleeps), and surfaces the
last attempt's failure (the timeout error or the last transport error); and
the first attempt that yields a received response (any status) is returned
immediately, with no further attempts. -/
theorem retry_budget_and_immediate_return :
    (∀ oracle : Nat → AttemptOutcome,
      (∀ n, n ≤ MAX_RETRIES → (oracle n).isFailure = true) →
      fetch_with_retry oracle =
        ⟨.fail (lastFailure (oracle MAX_RETRIES)), MAX_RETRIES + 1,
         MAX_RETRIES⟩) ∧
    (∀ (oracle : Nat → AttemptOutcome) (i : Nat) (r : Reply),
      i ≤ MAX_RETRIES →
      (∀ n, n < i → (oracle n).isFailure = true) →
      oracle i = .success r →
      fetch_with_retry oracle = ⟨.ok r, i + 1, i⟩) := by
  constructor
  · intro oracle h
    have := fetchAux_allFail oracle MAX_RETRIES 0
      (by intro k hk; simpa using h k hk)
    simpa [fetch_with_retry] using this
  · intro oracle i r hi hfail hs
    have := fetchAux_firstSuccess oracle i MAX_RETRIES 0 r hi
      (by intro n hn; simpa using hfail n hn) (by simpa using hs)
    simpa [fetch_with_retry] using this

/-- C7 witness: an always-timing-out oracle makes 4 attempts with 3 sleeps
and surfaces the timeout failure; an immediately-successful oracle returns
after 1 attempt. -/
theorem retry_budget_witness :
    fetch_with_retry (fun _ => .timeout) =
      ⟨.fail .timedOut, MAX_RETRIES + 1, MAX_RETRIES⟩ ∧
    fetch_with_retry (fun _ => .success ⟨500, H0, []⟩) =
      ⟨.ok ⟨500, H0, []⟩, 1, 0⟩ := by
  constructor
  · exact retry_budget_and_immediate_return.1 (fun _ => .timeout)
      (fun n _ => rfl)
  · exact retry_budget_and_immediate_return.2 (fun _ => .success ⟨500, H0, []⟩)
      0 ⟨500, H0, []⟩ (by omega) (fun n hn => absurd hn (Nat.not_lt_zero n))
      rfl

-- C9 -------------------------------------------------------------------------

/-- C9: in the needs-extension branch, after a 206 origin reply the response
body is produced by unguarded indexing `new_content[start..=end]`: it is in
bounds, and the handler returns a response, exactly when the 206 body supplies
at least `end - cachedLen + 1` bytes; any 206 reply carrying fewer bytes makes
the indexing out of bounds (`crash`), with no guarded error path. -/
theorem extension_indexing_bounds (s e : Nat) (cached : CacheEntry)
    (reqR : Option String) (hdrs : Headers) (chunks : List Chunk)
    (body : Bytes) (hbr : cached.content.length < e)
    (hread : readAll chunks = some body) :
    (body.length < e + 1 - cached.content.length →
      (handle_range_request (s, e) cached reqR
        (.ok ⟨206, hdrs, chunks⟩) true).result = .crash) ∧
    (s ≤ e → e + 1 - cached.content.length ≤ body.length →
      ∃ resp, (handle_range_request (s, e) cached reqR
        (.ok ⟨206, hdrs, chunks⟩) true).result = .ok resp) := by
  have hne : ¬ e ≤ cached.content.length := by omega
  constructor
  · intro hshort
    have hcond : ¬ (s ≤ e + 1 ∧
        e + 1 ≤ (cached.content ++ body).length) := by
      rw [List.length_append]
      omega
    simp only [handle_range_request, rsSlice]
    rw [if_neg hne]
    simp only [hread]
    rw [if_neg hcond]
    simp
  · intro hse hlong
    have hcond : s ≤ e + 1 ∧ e + 1 ≤ (cached.content ++ body).length := by
      rw [List.length_append]
      omega
    simp only [handle_range_request, rsSlice]
    rw [if_neg hne]
    simp only [hread]
    rw [if_pos hcond]
    simp

/-- C9 witness: a 206 reply with an empty body against a request needing two
more bytes crashes; one supplying the bytes yields a response. -/
theorem extension_indexing_bounds_witness :
    ((handle_range_request (0, 2) ⟨[3], ⟨"t", false, some 3⟩⟩ none
        (.ok ⟨206, H0, []⟩) true).result = .crash) ∧
    (∃ resp, (handle_range_request (0, 2) ⟨[3], ⟨"t", false, some 3⟩⟩ none
        (.ok ⟨206, H0, [.ok [4, 5]]⟩) true).result = .ok resp) := by
  constructor
  · exact (extension_indexing_bounds 0 2 ⟨[3], ⟨"t", false, some 3⟩⟩ none H0
      [] [] (by decide) rfl).1 (by decide)
  · exact (extension_indexing_bounds 0 2 ⟨[3], ⟨"t", false, some 3⟩⟩ none H0
      [.ok [4, 5]] [4, 5] (by decide) rfl).2 (by decide) (by decide)

-- C5 -------------------------------------------------------------------------

/-- A complete cached entry used in the C5 scenario. -/
def CompleteE : CacheEntry := ⟨[1, 2, 3], ⟨"t", true, some 3⟩⟩

/-- Oracle set for the C5 scenario: the full fetch succeeds with a one-byte
200 body and the HEAD probe reports no size. -/
def O5 : Oracles := ⟨.err, .err, .err, .ok ⟨200, H0, [.ok [5]]⟩, .ok H0, true⟩

/-- C5 counterexample: `bytes=500-` does not parse, and with a complete
cached entry the request is NOT handled like a no-range request: the no-range
path serves the cached 200 with no origin contact, while the unparseable-range
path falls through to a full origin fetch (with HEAD probe). -/
theorem c5_invalid_range_counterexample :
    parse_range "bytes=500-" = none ∧
    (handle_request (some CompleteE) (some "bytes=500-") O5).events =
      [.fullFetch, .headProbe] ∧
    handle_request (some CompleteE) none O5 =
      ⟨.ok ⟨200, some "t", none, [1, 2, 3]⟩, [], []⟩ ∧
    handle_request (some CompleteE) (some "bytes=500-") O5 ≠
      handle_request (some CompleteE) none O5 := by
  refine ⟨by decide, by decide, by decide, by decide⟩

/-- C5 amended: a `Range` header that fails to parse as
`bytes=<start>-<end>` makes the request fall through to the full-origin-fetch
path (`fetch_and_cache_full_response`), even when a (complete) cached entry
exists; no client-error status is produced by the proxy itself, but the
cached content is not served and origin is contacted. -/
theorem invalid_range_falls_to_full_fetch (entry : CacheEntry) (s : String)
    (O : Oracles) (hp : parse_range s = none) :
    handle_request (some entry) (some s) O = runFull O := by
  simp only [handle_request]
  rw [hp]

/-- C5 witness: concrete instance of `invalid_range_falls_to_full_fetch`. -/
theorem invalid_range_falls_to_full_fetch_witness :
    handle_request (some CompleteE) (some "bytes=500-") O5 = runFull O5 :=
  invalid_range_falls_to_full_fetch CompleteE "bytes=500-" O5 (by decide)

-- C10 ------------------------------------------------------------------------

/-- C10: `ProxyCache::set` updates the memory tier before the durable writes
and performs no rollback: for an entry within the size threshold, when the
durable write fails, `set` returns an error yet the memory tier already holds
the new entry, so a subsequent `get` returns it (and the durable tier is
unchanged). -/
theorem set_memory_first_no_rollback (st : CacheState) (k : String)
    (e : CacheEntry) (hsize : e.content.length ≤ MAX_FILE_SIZE) :
    (ProxyCache_set st k e false).1 = false ∧
    (ProxyCache_get (ProxyCache_set st k e false).2 k).1 =
      some (e, Tier.memory) ∧
    (ProxyCache_set st k e false).2.disk = st.disk := by
  have hset : ProxyCache_set st k e false =
      (false, ⟨lruPut MAX_CACHE_SIZE k e st.memory, st.disk⟩) := by
    simp [ProxyCache_set, hsize]
  refine ⟨by rw [hset], ?_, by rw [hset]⟩
  rw [hset]
  simp [ProxyCache_get, lruGet, lruPut, List.find?]

/-- C10 witness: concrete instance of `set_memory_first_no_rollback`. -/
theorem set_memory_first_no_rollback_witness :
    (ProxyCache_set ⟨[], []⟩ "k" ⟨[1], ⟨"t", true, some 1⟩⟩ false).1 = false ∧
    (ProxyCache_get
        (ProxyCache_set ⟨[], []⟩ "k" ⟨[1], ⟨"t", true, some 1⟩⟩ false).2
        "k").1 = some (⟨[1], ⟨"t", true, some 1⟩⟩, Tier.memory) ∧
    (ProxyCache_set ⟨[], []⟩ "k" ⟨[1], ⟨"t", true, some 1⟩⟩
        false).2.disk = [] :=
  set_memory_first_no_rollback ⟨[], []⟩ "k" ⟨[1], ⟨"t", true, some 1⟩⟩
    (by decide)

-- C8 -------------------------------------------------------------------------

/-- A body one byte larger than the cacheable bound. -/
def BigChunk : Bytes := List.replicate (MAX_FILE_SIZE + 1) 0

/-- A one-byte entry within the memory threshold. -/
def SmallE : CacheEntry := ⟨[1], ⟨"t", true, some 1⟩⟩

/-- An entry whose content exceeds the memory threshold. -/
def BigE : CacheEntry := ⟨BigChunk, ⟨"t", true, some (MAX_FILE_SIZE + 1)⟩⟩

/-- C8 counterexample: set/get round-trip fails when a stale memory-tier
entry shadows an oversized `set`: storing `BigE` under a key whose memory
slot holds `SmallE` succeeds, but `get` then serves the stale `SmallE` from
memory, not the entry just stored. -/
theorem c8_roundtrip_counterexample :
    (ProxyCache_set ⟨[("k", SmallE)], []⟩ "k" BigE true).1 = true ∧
    (ProxyCache_get (ProxyCache_set ⟨[("k", SmallE)], []⟩ "k" BigE true).2
      "k").1 = some (SmallE, Tier.memory) ∧
    SmallE ≠ BigE := by
  have hlen : BigE.content.length = MAX_FILE_SIZE + 1 := by
    show (List.replicate (MAX_FILE_SIZE + 1) 0).length = MAX_FILE_SIZE + 1
    exact List.length_replicate _ _
  have hbig : ¬ BigE.content.length ≤ MAX_FILE_SIZE := by omega
  have hset : ProxyCache_set ⟨[("k", SmallE)], []⟩ "k" BigE true =
      (true, ⟨[("k", SmallE)], diskInsert "k" BigE []⟩) := by
    simp [ProxyCache_set, hbig]
  refine ⟨by rw [hset], ?_, ?_⟩
  · rw [hset]
    simp [ProxyCache_get, lruGet, List.find?]
  · intro h
    have hlen2 : SmallE.content.length = BigE.content.length := by rw [h]
    have hone : SmallE.content.length = 1 := rfl
    have hM : 0 < MAX_FILE_SIZE := by norm_num [MAX_FILE_SIZE]
    omega

/-- C8 amended: `set(key, entry)` with a successful durable write followed by
`get(key)` returns the stored entry — from the memory tier when the content is
within the size threshold, and from the durable tier otherwise — provided
that, in the oversized case, the memory tier holds no stale entry for the key
(the source does not invalidate the memory tier when skipping it). -/
theorem set_get_roundtrip (st : CacheState) (k : String) (e : CacheEntry)
    (hstale : MAX_FILE_SIZE < e.content.length →
      st.memory.find? (fun p => p.1 == k) = none) :
    (ProxyCache_set st k e true).1 = true ∧
    (ProxyCache_get (ProxyCache_set st k e true).2 k).1 =
      some (e, if e.content.length ≤ MAX_FILE_SIZE
        then Tier.memory else Tier.disk) := by
  by_cases hle : e.content.length ≤ MAX_FILE_SIZE
  · have hset : ProxyCache_set st k e true =
        (true, ⟨lruPut MAX_CACHE_SIZE k e st.memory,
                diskInsert k e st.disk⟩) := by
      simp [ProxyCache_set, hle]
    rw [hset]
    refine ⟨rfl, ?_⟩
    rw [if_pos hle]
    simp [ProxyCache_get, lruGet, lruPut, List.find?]
  · have hset : ProxyCache_set st k e true =
        (true, ⟨st.memory, diskInsert k e st.disk⟩) := by
      simp [ProxyCache_set, hle]
    rw [hset]
    refine ⟨rfl, ?_⟩
    rw [if_neg hle]
    have hnone := hstale (by omega)
    simp [ProxyCache_get, lruGet, hnone, diskLookup, diskInsert,
      List.find?, hle]

/-- C8 witness: concrete instance of `set_get_roundtrip` on an empty store. -/
theorem set_get_roundtrip_witness :
    (ProxyCache_set ⟨[], []⟩ "k" SmallE true).1 = true ∧
    (ProxyCache_get (ProxyCache_set ⟨[], []⟩ "k" SmallE true).2 "k").1 =
      some (SmallE, if SmallE.content.length ≤ MAX_FILE_SIZE
        then Tier.memory else Tier.disk) :=
  set_get_roundtrip ⟨[], []⟩ "k" SmallE (fun _ => rfl)

-- C3 -------------------------------------------------------------------------

/-- The size invariant claimed for stored entries: a complete entry with a
known total size holds exactly that many content bytes. -/
def meets_size_invariant (e : CacheEntry) : Bool :=
  !e.meta.is_complete ||
    (match e.meta.total_size with
     | none => true
     | some t => e.content.length == t)

/-- C3 counterexample: the orchestrator's extension path stores a violating
entry when origin's 206 reply under-delivers.  A 1-byte incomplete entry with
`total_size = 2` merged with an empty 206 body is written back as
`is_complete = true`, `total_size = Some 2`, but only 1 content byte. -/
theorem c3_complete_entry_counterexample :
    (handle_incomplete ⟨[9], ⟨"t", false, some 2⟩⟩ (.ok H0)
      (.ok ⟨206, H0, []⟩) true).write = some ⟨[9], ⟨"t", true, some 2⟩⟩ ∧
    meets_size_invariant ⟨[9], ⟨"t", true, some 2⟩⟩ = false := by
  refine ⟨by decide, by decide⟩

theorem handleIncompleteSized_write_le (cached : CacheEntry) (sz : Nat)
    (ext : FetchReply) (diskOk : Bool) (probed : Bool) (w : CacheEntry)
    (t : Nat)
    (hw : (handleIncompleteSized cached sz ext diskOk probed).write = some w)
    (ht : w.meta.total_size = some t) : w.content.length ≤ t := by
  by_cases h0 : 0 < sz
  case neg => simp [handleIncompleteSized, h0] at hw
  by_cases hcov : sz ≤ cached.content.length
  · simp [handleIncompleteSized, h0, hcov] at hw
  cases ext with
  | err => simp [handleIncompleteSized, h0, hcov] at hw
  | ok r =>
    by_cases h206 : r.status = 206
    case neg => simp [handleIncompleteSized, h0, hcov, h206] at hw
    cases hsm : streamMerge sz cached.content.length r.chunks [] with
    | failed => simp [handleIncompleteSized, h0, hcov, h206, hsm] at hw
    | exceeded => simp [handleIncompleteSized, h0, hcov, h206, hsm] at hw
    | done remaining =>
      have hle := streamMerge_done_le sz cached.content.length r.chunks []
        remaining (by simp; omega) hsm
      cases diskOk <;>
        simp [handleIncompleteSized, h0, hcov, h206, hsm] at hw <;>
        subst hw <;>
        simp_all [List.length_append]

/-- C3 amended: the size invariant holds unconditionally for every entry the
range-merge path hands to `cache.set` (it always sets `total_size` to the new
content length); the orchestrator's extension path guarantees only
`content.length <= total_size` (equality fails when origin under-delivers);
and the full-fetch path satisfies the invariant provided the HEAD-probe
total, when present, agrees with the accumulated body length whenever the
completeness check succeeds. -/
theorem stored_entry_size_invariant :
    (∀ (range : Nat × Nat) (cached : CacheEntry) (reqR : Option String)
        (origin : FetchReply) (diskOk : Bool) (w : CacheEntry),
      (handle_range_request range cached reqR origin diskOk).cacheWrite =
        some w →
      meets_size_invariant w = true) ∧
    (∀ (cached : CacheEntry) (probe : ProbeReply) (ext : FetchReply)
        (diskOk : Bool) (w : CacheEntry) (t : Nat),
      (handle_incomplete cached probe ext diskOk).write = some w →
      w.meta.total_size = some t → w.content.length ≤ t) ∧
    (∀ (origin : FetchReply) (probe : ProbeReply) (diskOk : Bool)
        (w : CacheEntry),
      (fetch_and_cache_full_response origin probe diskOk).cacheWrite =
        some w →
      (∀ tn, get_total_size probe = some (some tn) →
        w.meta.is_complete = true → tn = w.content.length) →
      meets_size_invariant w = true) := by
  refine ⟨?_, ?_, ?_⟩
  · intro range cached reqR origin diskOk w hw
    rcases range with ⟨s, e⟩
    by_cases hcovered : e ≤ cached.content.length
    · cases hsl : rsSlice cached.content s (e + 1) <;>
        simp [handle_range_request, hcovered, hsl] at hw
    cases origin with
    | err => simp [handle_range_request, hcovered] at hw
    | ok r =>
      by_cases h206 : r.status = 206
      case neg => simp [handle_range_request, hcovered, h206] at hw
      cases hra : readAll r.chunks with
      | none => simp [handle_range_request, hcovered, h206, hra] at hw
      | some body =>
        by_cases hwants :
            cached.content.length + body.length ≤ MAX_FILE_SIZE
        · have hwshape :
              w = ⟨cached.content ++ body,
                   ⟨cached.meta.content_type,
                    e == u64Pred (cached.content.length + body.length),
                    some (cached.content.length + body.length)⟩⟩ := by
            cases diskOk with
            | false =>
              simp [handle_range_request, hcovered, h206, hra, hwants] at hw
              first
              | exact hw
              | exact hw.symm
            | true =>
              cases hsl : rsSlice (cached.content ++ body) s (e + 1) <;>
                simp [handle_range_request, hcovered, h206, hra, hwants,
                  hsl] at hw <;>
                (first
                  | exact hw
                  | exact hw.symm)
          subst hwshape
          simp [meets_size_invariant, List.length_append]
        · cases diskOk <;>
            cases hsl : rsSlice (cached.content ++ body) s (e + 1) <;>
              simp [handle_range_request, hcovered, h206, hra, hwants,
                hsl] at hw
  · intro cached probe ext diskOk w t hw ht
    cases hts : cached.meta.total_size with
    | some sz =>
      simp only [handle_incomplete, hts] at hw
      exact handleIncompleteSized_write_le cached sz ext diskOk false w t
        hw ht
    | none =>
      simp only [handle_incomplete, hts] at hw
      cases hgts : get_total_size probe with
      | none => rw [hgts] at hw; simp at hw
      | some t0 =>
        rw [hgts] at hw
        exact handleIncompleteSized_write_le cached (t0.getD 0) ext diskOk
          true w t hw ht
  · intro origin probe diskOk w hw hcons
    cases origin with
    | err => simp [fetch_and_cache_full_response] at hw
    | ok r =>
      by_cases hst : 200 ≤ r.status ∧ r.status ≤ 299
      case neg => simp [fetch_and_cache_full_response, hst] at hw
      cases hsf : streamFull r.chunks [] with
      | failed => simp [fetch_and_cache_full_response, hst, hsf] at hw
      | cut b => simp [fetch_and_cache_full_response, hst, hsf] at hw
      | done b =>
        cases hgts : get_total_size probe with
        | none => simp [fetch_and_cache_full_response, hst, hsf, hgts] at hw
        | some t =>
          cases t with
          | none =>
            have hwshape :
                w = ⟨b, ⟨(r.headers.contentType).getD
                          "application/octet-stream",
                         check_response_complete r.headers b.length,
                         some b.length⟩⟩ := by
              cases diskOk <;>
                simp [fetch_and_cache_full_response, hst, hsf, hgts]
                  at hw <;>
                (first
                  | exact hw
                  | exact hw.symm)
            subst hwshape
            simp [meets_size_invariant]
          | some n =>
            have hwshape :
                w = ⟨b, ⟨(r.headers.contentType).getD
                          "application/octet-stream",
                         check_response_complete r.headers b.length,
                         some n⟩⟩ := by
              cases diskOk <;>
                simp [fetch_and_cache_full_response, hst, hsf, hgts]
                  at hw <;>
                (first
                  | exact hw
                  | exact hw.symm)
            subst hwshape
            by_cases hic : check_response_complete r.headers b.length = true
            · have hn := hcons n hgts (by simpa using hic)
              simp [meets_size_invariant, hn]
            · have hic2 : check_response_complete r.headers b.length =
                  false := by
                revert hic
                cases check_response_complete r.headers b.length <;> simp
              simp [meets_size_invariant, hic2]

/-- C3 witness: concrete instances of all three conjuncts of
`stored_entry_size_invariant`. -/
theorem stored_entry_size_invariant_witness :
    meets_size_invariant ⟨[9, 7, 8], ⟨"t", true, some 3⟩⟩ = true ∧
    (⟨[9], ⟨"t", true, some 2⟩⟩ : CacheEntry).content.length ≤ 2 ∧
    meets_size_invariant
      ⟨[5], ⟨"application/octet-stream", true, some 1⟩⟩ = true := by
  refine ⟨?_, ?_, ?_⟩
  · exact stored_entry_size_invariant.1 (0, 2) E1 (some "bytes=0-2")
      (.ok ⟨206, H0, [.ok [7, 8]]⟩) true ⟨[9, 7, 8], ⟨"t", true, some 3⟩⟩
      (by decide)
  · exact stored_entry_size_invariant.2.1 ⟨[9], ⟨"t", false, some 2⟩⟩
      (.ok H0) (.ok ⟨206, H0, []⟩) true ⟨[9], ⟨"t", true, some 2⟩⟩ 2
      (by decide) (by decide)
  · exact stored_entry_size_invariant.2.2 (.ok ⟨200, H0, [.ok [5]]⟩)
      (.ok H0) true ⟨[5], ⟨"application/octet-stream", true, some 1⟩⟩
      (by decide) (by intro tn htn; simp [get_total_size, H0] at htn)

-- C4 -------------------------------------------------------------------------

theorem bigChunk_overflows :
    MAX_FILE_SIZE < (([] : Bytes) ++ BigChunk).length := by
  rw [List.nil_append]
  show MAX_FILE_SIZE < (List.replicate (MAX_FILE_SIZE + 1) 0).length
  rw [List.length_replicate]
  omega

theorem fetch_full_cut_eq (st : Nat) (h : Headers) (chunks : List Chunk)
    (probe : ProbeReply) (diskOk : Bool) (b : Bytes)
    (hst : 200 ≤ st ∧ st ≤ 299) (hcut : streamFull chunks [] = .cut b) :
    fetch_and_cache_full_response (.ok ⟨st, h, chunks⟩) probe diskOk =
      ⟨.ok ⟨st, none, none, b⟩, none, false⟩ := by
  simp [fetch_and_cache_full_response, hst, hcut]

/-- C4 counterexample: a streamed body that crosses the max-file-size bound
is NOT delivered in full: with a first chunk already over the bound, the
returned body is that chunk alone, the second chunk is never read, and
nothing is handed to `cache.set`. -/
theorem c4_oversized_counterexample :
    (fetch_and_cache_full_response
      (.ok ⟨200, H0, [.ok BigChunk, .ok [1]]⟩) (.ok H0) true).result =
      .ok ⟨200, none, none, BigChunk⟩ ∧
    (fetch_and_cache_full_response
      (.ok ⟨200, H0, [.ok BigChunk, .ok [1]]⟩) (.ok H0) true).cacheWrite =
      none ∧
    BigChunk ≠ BigChunk ++ [1] := by
  have hcut : streamFull [Chunk.ok BigChunk, Chunk.ok [1]] [] =
      .cut BigChunk := by
    simp only [streamFull]
    rw [if_pos bigChunk_overflows, List.nil_append]
  have hmain : fetch_and_cache_full_response
      (.ok ⟨200, H0, [.ok BigChunk, .ok [1]]⟩) (.ok H0) true =
      ⟨.ok ⟨200, none, none, BigChunk⟩, none, false⟩ :=
    fetch_full_cut_eq 200 H0 [.ok BigChunk, .ok [1]] (.ok H0) true BigChunk
      (by omega) hcut
  refine ⟨by rw [hmain], by rw [hmain], ?_⟩
  intro h
  have hlen := congrArg List.length h
  rw [List.length_append] at hlen
  rw [show (([1] : Bytes)).length = 1 from rfl] at hlen
  omega

/-- C4 amended: when the accumulated stream crosses the max-file-size bound,
the client receives a response with the origin status and exactly the bytes
accumulated up to and including the crossing chunk (which exceed the bound;
later chunks are never read, and origin headers are not copied), and nothing
is written to the cache. -/
theorem oversized_body_cut_not_cached (st : Nat) (h : Headers)
    (chunks : List Chunk) (probe : ProbeReply) (diskOk : Bool) (b : Bytes)
    (hst : 200 ≤ st ∧ st ≤ 299) (hcut : streamFull chunks [] = .cut b) :
    fetch_and_cache_full_response (.ok ⟨st, h, chunks⟩) probe diskOk =
      ⟨.ok ⟨st, none, none, b⟩, none, false⟩ ∧
    MAX_FILE_SIZE < b.length :=
  ⟨fetch_full_cut_eq st h chunks probe diskOk b hst hcut,
   streamFull_cut_gt chunks [] b hcut⟩

/-- C4 witness: concrete instance of `oversized_body_cut_not_cached`. -/
theorem oversized_body_cut_not_cached_witness :
    fetch_and_cache_full_response (.ok ⟨200, H0, [.ok BigChunk]⟩)
      (.ok H0) true = ⟨.ok ⟨200, none, none, BigChunk⟩, none, false⟩ ∧
    MAX_FILE_SIZE < BigChunk.length := by
  refine oversized_body_cut_not_cached 200 H0 [.ok BigChunk] (.ok H0) true
    BigChunk (by omega) ?_
  simp only [streamFull]
  rw [if_pos bigChunk_overflows, List.nil_append]
